import Mathlib

/-!
# Verification of the pachinko-sphere core

Shallow embedding of the repository's core modules and proofs about them:

* `src/lib/drawEngine.ts` — the fair draw sampler (`shuffle`, `drawWinners`).
  The entropy source (`crypto.getRandomValues` filling a `Uint32Array(1)`)
  is modelled as an explicit stream of natural numbers `< 2^32`, one value
  consumed per loop iteration.
* `src/lib/spinMath.ts` — the spin timing planner (`computeSpinPlan`),
  embedded over the real numbers.
* `src/lib/store.ts` (+ `types.ts`) — the persisted `AppState` store and its
  helper actions, with the JS `Record<string, string[]>` results map embedded
  as an association list.
* `LotteryManager` (`startDraw` / `drawPrize`) — the draw orchestrator,
  embedded as a function from the invocation-time state plus the oracles it
  consults (the overwrite-confirmation answer and the entropy stream) to a
  symbolic outcome describing how far the flow got and which state it left
  behind; the deferred completion callback is a separate state transformer.
* `src/components/LotterySphere.ts` — the sequencing/control part of the
  orientation state machine (`stopAndHighlightWinners`, the `decelerating` and
  `highlighting` branches of `animate`, `prepareDeceleration`,
  `prepareTransitionToNext`), with `performance.now()` timestamps passed in as
  explicit natural-number milliseconds and the emitted callbacks
  (`onWinnerHighlight`, `onAllFinished`) reified as events.
-/

namespace Pachinko

open scoped List

/-! ## drawEngine.ts -/

/-- One JS destructuring swap `[arr[i], arr[j]] = [arr[j], arr[i]]`:
write `arr[j]` at position `i` and `arr[i]` at position `j`.
Out-of-range indices leave the list unchanged (they never occur in the
shuffle loop). -/
def swapAt (l : List α) (i j : Nat) : List α :=
  match l.get? i, l.get? j with
  | some a, some b => (l.set i b).set j a
  | _, _ => l

/-- The loop of `shuffle`: `for (let i = arr.length - 1; i > 0; i--)`,
`j = randomBuffer[0] % (i + 1)`, swap `arr[i]` and `arr[j]`.  The parameter
`i` is the current loop index; `rand` is the stream of 32-bit values
produced by `crypto.getRandomValues`, one consumed per iteration. -/
def fyGo : List α → List Nat → Nat → List α
  | arr, _, 0 => arr
  | arr, [], _ + 1 => arr
  | arr, r :: rs, i + 1 => fyGo (swapAt arr (i + 1) (r % (i + 1 + 1))) rs i

/-- `shuffle` from `drawEngine.ts`: copy the array, then run the
Fisher–Yates loop from index `length - 1` down to `1`. -/
def shuffle (arr : List α) (rand : List Nat) : List α :=
  fyGo arr rand (arr.length - 1)

/-- `DrawResult` from `types.ts`. -/
structure DrawResult where
  winners : List String
  remainingCandidates : List String
  deriving Repr, DecidableEq

/-- `drawWinners` from `drawEngine.ts`.  The count is an `Int` because a JS
number can be negative (the guard is `count <= 0`); thrown `Error`s are
embedded as `Except.error` with the exact message string. -/
def drawWinners (candidates : List String) (count : Int) (rand : List Nat) :
    Except String DrawResult :=
  if count ≤ 0 then
    .error "Draw count must be at least 1"
  else if count > (candidates.length : Int) then
    .error "Not enough candidates to draw"
  else
    let shuffled := shuffle candidates rand
    .ok { winners := shuffled.take count.toNat
          remainingCandidates := shuffled.drop count.toNat }

/-! ### The shuffle output is a permutation of the input -/

/-- Replacing the element found at position `k` and carrying it to the
front is a permutation of putting the new element at the front. -/
theorem cons_set_perm (xs : List α) (k : Nat) (a x : α)
    (h : xs.get? k = some a) : a :: xs.set k x ~ x :: xs := by
  induction xs generalizing k with
  | nil => simp at h
  | cons y t ih =>
    cases k with
    | zero =>
      simp only [List.get?] at h
      cases h
      exact List.Perm.swap x a t
    | succ m =>
      simp only [List.get?] at h
      calc a :: (y :: t).set (m + 1) x = a :: y :: t.set m x := by simp
        _ ~ y :: a :: t.set m x := List.Perm.swap y a _
        _ ~ y :: x :: t := List.Perm.cons y (ih m h)
        _ ~ x :: y :: t := List.Perm.swap x y t

/-- A swap with `j ≤ i` permutes the list. -/
theorem swapAt_perm (l : List α) (i j : Nat) (hj : j ≤ i) :
    swapAt l i j ~ l := by
  induction l generalizing i j with
  | nil => simp [swapAt]
  | cons y t ih =>
    cases j with
    | zero =>
      cases i with
      | zero =>
        unfold swapAt
        simp only [List.get?]
        cases t <;> simp
      | succ k =>
        unfold swapAt
        simp only [List.get?]
        cases hk : t.get? k with
        | none => exact List.Perm.refl _
        | some a =>
          simp only [List.set]
          exact cons_set_perm t k a y hk
    | succ m =>
      cases i with
      | zero => omega
      | succ k =>
        have hmk : m ≤ k := Nat.succ_le_succ_iff.mp hj
        unfold swapAt
        simp only [List.get?]
        cases ha : t.get? k with
        | none => exact List.Perm.refl _
        | some a =>
          cases hb : t.get? m with
          | none => exact List.Perm.refl _
          | some b =>
            simp only [List.set]
            have := ih k m hmk
            unfold swapAt at this
            rw [ha, hb] at this
            exact List.Perm.cons y this

/-- Every state of the Fisher–Yates loop is a permutation of its input. -/
theorem fyGo_perm (i : Nat) (arr : List α) (rand : List Nat) :
    fyGo arr rand i ~ arr := by
  induction i generalizing arr rand with
  | zero => simp [fyGo]
  | succ n ih =>
    cases rand with
    | nil => simp [fyGo]
    | cons r rs =>
      calc fyGo (swapAt arr (n + 1) (r % (n + 1 + 1))) rs n
            ~ swapAt arr (n + 1) (r % (n + 1 + 1)) := ih _ _
        _ ~ arr := swapAt_perm _ _ _ (by
            have := Nat.mod_lt r (y := n + 1 + 1) (by omega)
            omega)

/-- `shuffle` returns a permutation of its input. -/
theorem shuffle_perm (arr : List α) (rand : List Nat) :
    shuffle arr rand ~ arr :=
  fyGo_perm _ arr rand

/-- C1: on a duplicate-free candidate list and a count with
`0 < count ≤ candidates.length`, `drawWinners` succeeds with `count`
pairwise-distinct winners all drawn from `candidates`, and
`remainingCandidates` of length `candidates.length - count` sharing no
element with the winners — for every entropy stream. -/
theorem drawWinners_valid (candidates : List String) (count : Int)
    (rand : List Nat) (hnd : candidates.Nodup) (h0 : 0 < count)
    (hle : count ≤ (candidates.length : Int)) :
    ∃ res, drawWinners candidates count rand = .ok res ∧
      (res.winners.length : Int) = count ∧
      res.winners.Nodup ∧
      (∀ x ∈ res.winners, x ∈ candidates) ∧
      (res.remainingCandidates.length : Int) = (candidates.length : Int) - count ∧
      ∀ x ∈ res.winners, x ∉ res.remainingCandidates := by
  have hns : shuffle candidates rand ~ candidates := shuffle_perm _ _
  have hlen : (shuffle candidates rand).length = candidates.length :=
    hns.length_eq
  have hnod : (shuffle candidates rand).Nodup := hns.nodup_iff.mpr hnd
  have hnle : count.toNat ≤ candidates.length := by omega
  have happ : ((shuffle candidates rand).take count.toNat ++
      (shuffle candidates rand).drop count.toNat).Nodup := by
    rw [List.take_append_drop]; exact hnod
  rw [List.nodup_append] at happ
  obtain ⟨htk, hdr, hdisj⟩ := happ
  refine ⟨⟨(shuffle candidates rand).take count.toNat,
           (shuffle candidates rand).drop count.toNat⟩, ?_, ?_, htk, ?_, ?_, ?_⟩
  · simp only [drawWinners]
    rw [if_neg (by omega), if_neg (by omega)]
  · simp only [List.length_take, hlen]
    omega
  · intro x hx
    exact hns.subset (List.take_subset _ _ hx)
  · simp only [List.length_drop, hlen]
    omega
  · intro x hx
    exact hdisj hx

/-- Witness for `drawWinners_valid` at the concrete input
`(["a","b","c"], 2, [5, 3])`. -/
theorem drawWinners_valid_witness :
    ∃ res, drawWinners ["a", "b", "c"] 2 [5, 3] = .ok res ∧
      (res.winners.length : Int) = 2 ∧
      res.winners.Nodup ∧
      (∀ x ∈ res.winners, x ∈ ["a", "b", "c"]) ∧
      (res.remainingCandidates.length : Int) = (([ "a", "b", "c"].length : Nat) : Int) - 2 ∧
      ∀ x ∈ res.winners, x ∉ res.remainingCandidates :=
  drawWinners_valid ["a", "b", "c"] 2 [5, 3] (by decide) (by decide) (by decide)

/-! ### Distribution of the shuffle under uniform 32-bit entropy

`crypto.getRandomValues` on a `Uint32Array(1)` yields one uniformly
distributed value in `[0, 2^32)` per loop iteration.  For a 3-element list
the loop consumes two such values, so the probability that `shuffle l`
produces `out` is `seedCount3 l out / 2^64`. -/

/-- Number of distinct values a 32-bit entropy read can take. -/
def uint32Count : Nat := 2 ^ 32

/-- All pairs of 32-bit entropy values feeding a 3-element shuffle
(one value for loop index `i = 2`, one for `i = 1`). -/
def seedPairs : Finset (Nat × Nat) :=
  Finset.range uint32Count ×ˢ Finset.range uint32Count

/-- Number of entropy pairs under which `shuffle` maps the 3-element
list `l` to `out`. -/
def seedCount3 (l out : List String) : Nat :=
  (seedPairs.filter fun p => shuffle l [p.1, p.2] = out).card

/-- Counting multiples-of-three residues below `N`. -/
theorem card_range_filter_mod_three (N k : Nat) (hk : k < 3) :
    ((Finset.range N).filter (fun r => r % 3 = k)).card =
      N / 3 + if k < N % 3 then 1 else 0 := by
  induction N with
  | zero => simp
  | succ n ih =>
    rw [Finset.range_succ, Finset.filter_insert]
    by_cases h : n % 3 = k
    · rw [if_pos h, Finset.card_insert_of_not_mem (by simp), ih]
      split_ifs <;> omega
    · rw [if_neg h, ih]
      split_ifs <;> omega

/-- Counting parity residues below `N`. -/
theorem card_range_filter_mod_two (N k : Nat) (hk : k < 2) :
    ((Finset.range N).filter (fun r => r % 2 = k)).card =
      N / 2 + if k < N % 2 then 1 else 0 := by
  induction N with
  | zero => simp
  | succ n ih =>
    rw [Finset.range_succ, Finset.filter_insert]
    by_cases h : n % 2 = k
    · rw [if_pos h, Finset.card_insert_of_not_mem (by simp), ih]
      split_ifs <;> omega
    · rw [if_neg h, ih]
      split_ifs <;> omega

/-- Evaluation of the 3-element shuffle: the output is a function of the
two reduced indices `r2 % 3` and `r1 % 2` only. -/
theorem shuffle3_cases (a b c : String) (r2 r1 : Nat) :
    shuffle [a, b, c] [r2, r1] =
      if r2 % 3 = 0 then (if r1 % 2 = 0 then [b, c, a] else [c, b, a])
      else if r2 % 3 = 1 then (if r1 % 2 = 0 then [c, a, b] else [a, c, b])
      else (if r1 % 2 = 0 then [b, a, c] else [a, b, c]) := by
  have h2 : r2 % 3 = 0 ∨ r2 % 3 = 1 ∨ r2 % 3 = 2 := by omega
  have h1 : r1 % 2 = 0 ∨ r1 % 2 = 1 := by omega
  rcases h2 with h2 | h2 | h2 <;> rcases h1 with h1 | h1 <;>
    simp [shuffle, fyGo, swapAt, h2, h1]

/-- The permutation `[b, c, a]` is reached exactly from residues
`(0, 0)`, which `2^32` values hit `1431655766` resp. `2^31` times. -/
theorem seedCount3_eq_bca (a b c : String) (hab : a ≠ b) (hac : a ≠ c)
    (hbc : b ≠ c) :
    seedCount3 [a, b, c] [b, c, a] = 1431655766 * 2 ^ 31 := by
  have key : ∀ p : Nat × Nat,
      shuffle [a, b, c] [p.1, p.2] = [b, c, a] ↔ (p.1 % 3 = 0 ∧ p.2 % 2 = 0) := by
    intro p
    rw [shuffle3_cases]
    have h2 : p.1 % 3 = 0 ∨ p.1 % 3 = 1 ∨ p.1 % 3 = 2 := by omega
    have h1 : p.2 % 2 = 0 ∨ p.2 % 2 = 1 := by omega
    rcases h2 with h2 | h2 | h2 <;> rcases h1 with h1 | h1 <;>
      simp [h2, h1, hab, hac, hbc, hab.symm, hac.symm, hbc.symm]
  simp only [seedCount3, seedPairs]
  rw [Finset.filter_congr (fun x _ => key x),
    Finset.filter_product (fun r : Nat => r % 3 = 0) (fun r : Nat => r % 2 = 0),
    Finset.card_product,
    card_range_filter_mod_three _ _ (by omega),
    card_range_filter_mod_two _ _ (by omega)]
  norm_num [uint32Count]

/-- The permutation `[b, a, c]` is reached exactly from residues
`(2, 0)`, which `2^32` values hit `1431655765` resp. `2^31` times. -/
theorem seedCount3_eq_bac (a b c : String) (hab : a ≠ b) (hac : a ≠ c)
    (hbc : b ≠ c) :
    seedCount3 [a, b, c] [b, a, c] = 1431655765 * 2 ^ 31 := by
  have key : ∀ p : Nat × Nat,
      shuffle [a, b, c] [p.1, p.2] = [b, a, c] ↔ (p.1 % 3 = 2 ∧ p.2 % 2 = 0) := by
    intro p
    rw [shuffle3_cases]
    have h2 : p.1 % 3 = 0 ∨ p.1 % 3 = 1 ∨ p.1 % 3 = 2 := by omega
    have h1 : p.2 % 2 = 0 ∨ p.2 % 2 = 1 := by omega
    rcases h2 with h2 | h2 | h2 <;> rcases h1 with h1 | h1 <;>
      simp [h2, h1, hab, hac, hbc, hab.symm, hac.symm, hbc.symm]
  simp only [seedCount3, seedPairs]
  rw [Finset.filter_congr (fun x _ => key x),
    Finset.filter_product (fun r : Nat => r % 3 = 2) (fun r : Nat => r % 2 = 0),
    Finset.card_product,
    card_range_filter_mod_three _ _ (by omega),
    card_range_filter_mod_two _ _ (by omega)]
  norm_num [uint32Count]

/-- C2 counterexample: with the entropy source modelled as i.i.d. uniform
32-bit values, the 3-element input `["a", "b", "c"]` does *not* give every
permutation the same probability — the outputs `["b", "c", "a"]` and
`["b", "a", "c"]` are produced by different numbers of entropy pairs,
because `r % 3` does not treat the `2^32` values evenly. -/
theorem shuffle3_not_uniform :
    seedCount3 ["a", "b", "c"] ["b", "c", "a"] ≠
      seedCount3 ["a", "b", "c"] ["b", "a", "c"] := by
  rw [seedCount3_eq_bca "a" "b" "c" (by decide) (by decide) (by decide),
    seedCount3_eq_bac "a" "b" "c" (by decide) (by decide) (by decide)]
  norm_num

/-- C2 (amended): the Fisher–Yates loop reduces each uniform 32-bit value
modulo `i + 1`, so permutations are equally likely only when every such
modulus divides `2^32`; for a 3-element list of distinct names the bias is
exactly one extra seed value on the residue `r % 3 = 0`: permutation
`[b, c, a]` is hit by `1431655766 * 2^31` of the `2^64` entropy pairs while
`[b, a, c]` is hit by `1431655765 * 2^31`. -/
theorem shuffle3_mod_bias (a b c : String) (hab : a ≠ b) (hac : a ≠ c)
    (hbc : b ≠ c) :
    seedCount3 [a, b, c] [b, c, a] = 1431655766 * 2 ^ 31 ∧
    seedCount3 [a, b, c] [b, a, c] = 1431655765 * 2 ^ 31 :=
  ⟨seedCount3_eq_bca a b c hab hac hbc, seedCount3_eq_bac a b c hab hac hbc⟩

/-- Witness for `shuffle3_mod_bias` at the concrete names
`"a"`, `"b"`, `"c"`. -/
theorem shuffle3_mod_bias_witness :
    seedCount3 ["a", "b", "c"] ["b", "c", "a"] = 1431655766 * 2 ^ 31 ∧
    seedCount3 ["a", "b", "c"] ["b", "a", "c"] = 1431655765 * 2 ^ 31 :=
  shuffle3_mod_bias "a" "b" "c" (by decide) (by decide) (by decide)

/-- C9: `drawWinners` fails with the invalid-count error whenever
`count ≤ 0` and with the insufficient-candidates error whenever
`count > candidates.length`; in both cases no `DrawResult` is produced
(the embedding is a pure function, so the input list is untouched). -/
theorem drawWinners_invalid (candidates : List String) (count : Int)
    (rand : List Nat) :
    (count ≤ 0 →
      drawWinners candidates count rand = .error "Draw count must be at least 1") ∧
    (count > (candidates.length : Int) →
      drawWinners candidates count rand = .error "Not enough candidates to draw") := by
  constructor
  · intro h
    simp only [drawWinners]
    rw [if_pos h]
  · intro h
    simp only [drawWinners]
    by_cases h0 : count ≤ 0
    · omega
    · rw [if_neg h0, if_pos h]

/-- Witness for `drawWinners_invalid`: count `0` hits the invalid-count
error, count `2` on a single candidate hits the insufficiency error. -/
theorem drawWinners_invalid_witness :
    drawWinners ["a"] 0 [] = .error "Draw count must be at least 1" ∧
    drawWinners ["a"] 2 [] = .error "Not enough candidates to draw" :=
  ⟨(drawWinners_invalid ["a"] 0 []).1 (by decide),
   (drawWinners_invalid ["a"] 2 []).2 (by decide)⟩

/-! ## spinMath.ts

Embedded over the real numbers: JS float arithmetic is modelled exactly,
with `Math.PI` as `Real.pi`. -/

/-- `SpinPlanOptions` from `spinMath.ts`: duration in seconds, number of
turns, base speed in rad/s. -/
structure SpinPlanOptions where
  duration : ℝ
  turns : ℝ
  baseSpeed : ℝ

/-- `SpinPlan` from `spinMath.ts`: peak velocity in rad/ms, phase
durations in ms. -/
structure SpinPlan where
  maxAngularVelocity : ℝ
  accelerationDuration : ℝ
  constantDuration : ℝ
  decelerationDuration : ℝ

/-- `computeSpinPlan` from `spinMath.ts`.  The source performs no
validation of its input: the body is exactly these arithmetic bindings. -/
noncomputable def computeSpinPlan (options : SpinPlanOptions) : SpinPlan :=
  let totalRadian := options.turns * Real.pi * 2
  let totalMs := options.duration * 1000
  let accelRatio : ℝ := 0.2
  let constRatio : ℝ := 0.4
  let decelRatio : ℝ := 0.4
  let t1 := totalMs * accelRatio
  let t2 := totalMs * constRatio
  let t3 := totalMs * decelRatio
  let V := totalRadian / (0.5 * t1 + t2 + 0.5 * t3)
  { maxAngularVelocity := V
    accelerationDuration := t1
    constantDuration := t2
    decelerationDuration := t3 }

/-- The three-phase displacement of a plan:
`0.5·t1·V + t2·V + 0.5·t3·V` (triangular ramps on the acceleration and
deceleration phases, rectangle on the cruise phase). -/
noncomputable def planDisplacement (p : SpinPlan) : ℝ :=
  0.5 * p.accelerationDuration * p.maxAngularVelocity +
    p.constantDuration * p.maxAngularVelocity +
    0.5 * p.decelerationDuration * p.maxAngularVelocity

/-- The displacement identity needs only a nonzero duration; the source
never checks the sign of `duration` or `turns`. -/
theorem planDisplacement_computeSpinPlan (o : SpinPlanOptions)
    (hd : o.duration ≠ 0) :
    planDisplacement (computeSpinPlan o) = o.turns * (2 * Real.pi) := by
  simp only [planDisplacement, computeSpinPlan]
  have h : 0.5 * (o.duration * 1000 * 0.2) + o.duration * 1000 * 0.4 +
      0.5 * (o.duration * 1000 * 0.4) = 700 * o.duration := by ring
  rw [h]
  have h700 : (700 : ℝ) * o.duration ≠ 0 := mul_ne_zero (by norm_num) hd
  field_simp
  ring

/-- C3: for every `duration > 0`, `turns > 0` and any `baseSpeed`, the
`SpinPlan` returned by `computeSpinPlan` satisfies
`0.5·t1·V + t2·V + 0.5·t3·V = turns · 2π` exactly over the reals. -/
theorem computeSpinPlan_total_angle (o : SpinPlanOptions)
    (hd : 0 < o.duration) (_ht : 0 < o.turns) :
    0.5 * (computeSpinPlan o).accelerationDuration *
        (computeSpinPlan o).maxAngularVelocity +
      (computeSpinPlan o).constantDuration *
        (computeSpinPlan o).maxAngularVelocity +
      0.5 * (computeSpinPlan o).decelerationDuration *
        (computeSpinPlan o).maxAngularVelocity =
      o.turns * (2 * Real.pi) :=
  planDisplacement_computeSpinPlan o (ne_of_gt hd)

/-- Witness for `computeSpinPlan_total_angle` at
`(duration, turns, baseSpeed) = (1, 1, 0)`. -/
theorem computeSpinPlan_total_angle_witness :
    0.5 * (computeSpinPlan ⟨1, 1, 0⟩).accelerationDuration *
        (computeSpinPlan ⟨1, 1, 0⟩).maxAngularVelocity +
      (computeSpinPlan ⟨1, 1, 0⟩).constantDuration *
        (computeSpinPlan ⟨1, 1, 0⟩).maxAngularVelocity +
      0.5 * (computeSpinPlan ⟨1, 1, 0⟩).decelerationDuration *
        (computeSpinPlan ⟨1, 1, 0⟩).maxAngularVelocity =
      (1 : ℝ) * (2 * Real.pi) :=
  computeSpinPlan_total_angle ⟨1, 1, 0⟩ one_pos one_pos

/-- C4 counterexample: `computeSpinPlan` does *not* fail on
`duration ≤ 0` — at `(duration, turns, baseSpeed) = (-1, 1, 0)` it returns
an ordinary `SpinPlan` (with negative phase durations) instead of
signalling `InvalidPlanError`; the source contains no validation and no
error of that name exists anywhere in the repository. -/
theorem computeSpinPlan_no_validation :
    computeSpinPlan ⟨-1, 1, 0⟩ =
      { maxAngularVelocity := -(Real.pi / 350)
        accelerationDuration := -200
        constantDuration := -400
        decelerationDuration := -400 } := by
  simp only [computeSpinPlan, SpinPlan.mk.injEq]
  refine ⟨?_, by norm_num, by norm_num, by norm_num⟩
  have h : (0.5 : ℝ) * (-1 * 1000 * 0.2) + -1 * 1000 * 0.4 +
      0.5 * (-1 * 1000 * 0.4) = -700 := by norm_num
  rw [h]
  rw [div_neg]
  rw [neg_inj]
  rw [div_eq_div_iff (by norm_num) (by norm_num)]
  ring

/-- C4 (amended): `computeSpinPlan` is a pure total function that never
signals an error; it applies the same closed-form arithmetic to every
input, so for every option record with `duration ≠ 0` — the sign of
`duration` and `turns` is never checked — the three-phase displacement
still equals `turns · 2π`. -/
theorem computeSpinPlan_unguarded (o : SpinPlanOptions)
    (hd : o.duration ≠ 0) :
    planDisplacement (computeSpinPlan o) = o.turns * (2 * Real.pi) :=
  planDisplacement_computeSpinPlan o hd

/-- Witness for `computeSpinPlan_unguarded` at the invalid input
`(duration, turns, baseSpeed) = (-1, 1, 0)`, which the source happily
processes. -/
theorem computeSpinPlan_unguarded_witness :
    planDisplacement (computeSpinPlan ⟨-1, 1, 0⟩) = (1 : ℝ) * (2 * Real.pi) :=
  computeSpinPlan_unguarded ⟨-1, 1, 0⟩ (by norm_num)

/-- C10: the output of `computeSpinPlan` does not depend on the
`baseSpeed` field of its input — a two-run noninterference statement (and
the function is deterministic, being a function). -/
theorem computeSpinPlan_baseSpeed_noninterference (d t b1 b2 : ℝ) :
    computeSpinPlan ⟨d, t, b1⟩ = computeSpinPlan ⟨d, t, b2⟩ := rfl

/-! ## types.ts / store.ts — the persisted `AppState` -/

/-- `Language` from `types.ts`. -/
inductive Language
  | zh
  | en
  deriving DecidableEq, Repr

/-- `AppMode` from `types.ts`. -/
inductive AppMode
  | prize
  | free
  deriving DecidableEq, Repr

/-- `Prize` from `types.ts`. -/
structure Prize where
  id : String
  title : String
  count : Nat
  note : Option String := none
  deriving DecidableEq, Repr

/-- `AppState` from `types.ts`.  The JS `Record<string, string[]>` results
map is embedded as an association list with unique keys (a JS object
cannot hold a key twice). -/
structure AppState where
  mode : AppMode
  candidates : List String
  prizes : List Prize
  results : List (String × List String)
  freeResults : List String
  freeInitialCandidates : List String
  currentPrizeId : String
  language : Language
  isDrawing : Bool
  deriving DecidableEq, Repr

/-- JS `results[prizeId]` read. -/
def resultsGet (results : List (String × List String)) (id : String) :
    Option (List String) :=
  (results.find? fun e => e.1 = id).map (·.2)

/-- JS `delete results[prizeId]`. -/
def resultsDelete (results : List (String × List String)) (id : String) :
    List (String × List String) :=
  results.filter fun e => e.1 ≠ id

/-- JS `results[prizeId] = v`: replace the (unique) existing entry in
place, or add the key if absent. -/
def resultsSet : List (String × List String) → String → List String →
    List (String × List String)
  | [], id, v => [(id, v)]
  | e :: t, id, v => if e.1 = id then (id, v) :: t else e :: resultsSet t id v

/-- `Store.setDrawing`. -/
def setDrawing (b : Bool) (s : AppState) : AppState := { s with isDrawing := b }

/-- `Store.addResults`: appends `names` to the prize's existing result
list (`[...(currentResults[prizeId] || []), ...names]`). -/
def addResults (prizeId : String) (names : List String) (s : AppState) :
    AppState :=
  let prev := (resultsGet s.results prizeId).getD []
  { s with results := resultsSet s.results prizeId (prev ++ names) }

/-- `Store.removeCandidates`: `candidates.filter(n => !names.includes(n))`. -/
def removeCandidates (names : List String) (s : AppState) : AppState :=
  { s with candidates := s.candidates.filter fun n => ¬names.contains n }

/-- Deleting a key makes it unreadable. -/
theorem resultsGet_resultsDelete (r : List (String × List String))
    (id : String) : resultsGet (resultsDelete r id) id = none := by
  have h : (resultsDelete r id).find? (fun e => e.1 = id) = none := by
    rw [List.find?_eq_none]
    intro e he
    rw [resultsDelete, List.mem_filter] at he
    simpa using he.2
  simp [resultsGet, h]

/-- Reading a key just written yields the written value. -/
theorem resultsGet_resultsSet (r : List (String × List String))
    (id : String) (v : List String) :
    resultsGet (resultsSet r id v) id = some v := by
  induction r with
  | nil => simp [resultsSet, resultsGet]
  | cons e t ih =>
    by_cases h : e.1 = id
    · simp [resultsSet, resultsGet, h]
    · simp only [resultsSet, if_neg h]
      simpa [resultsGet, List.find?, h] using ih

/-! ## LotteryManager — the draw orchestrator

`startDraw` / `drawPrize` / `drawFree` are embedded as functions of the
invocation-time `AppState` plus the two oracles the flow consults: the
answer the overwrite-confirmation modal would return, and the entropy
stream handed to `drawWinners`.  The sphere, the settings used to build
the spin plan, the alert modal and the UI callbacks are presentation
collaborators that receive data but never feed any back into the
persisted state, so the embedding records only which of them was reached,
via the outcome constructor. -/

/-- Where one orchestrator invocation ends, and the `AppState` it leaves
behind at that point. -/
inductive DrawOutcome
  | noPrize (s : AppState)
  | declined (s : AppState)
  | insufficient (s : AppState)
  | sampleError (s : AppState) (msg : String)
  | started (s : AppState) (prizeId : String) (winners : List String)
  | freeInsufficient (s : AppState)
  | freeAssertFailed (s : AppState)
  | freeStarted (s : AppState) (winner : String)
  deriving DecidableEq, Repr

/-- `drawPrize` from the insufficiency check on: `currentState` is the
state re-read after the optional rollback, `prize` the active prize.  On
success the orchestrator sets `isDrawing`, requests the spin, samples the
winners immediately, and schedules the reveal (`.started`). -/
def drawPrizeFrom (prize : Prize) (s1 : AppState) (rand : List Nat) :
    DrawOutcome :=
  if s1.candidates.length < prize.count then .insufficient s1
  else
    let s2 := setDrawing true s1
    match drawWinners s1.candidates (prize.count : Int) rand with
    | .error msg => .sampleError s2 msg
    | .ok res => .started s2 prize.id res.winners

/-- `LotteryManager.drawPrize`: resolve the active prize; on existing
winners ask for overwrite confirmation and, when confirmed, roll the
previous winners back into the candidate pool and delete the prize's
results; then validate pool size and proceed. -/
def drawPrize (s : AppState) (confirm : Bool) (rand : List Nat) :
    DrawOutcome :=
  match s.prizes.find? fun p => p.id = s.currentPrizeId with
  | none => .noPrize s
  | some prize =>
    match resultsGet s.results prize.id with
    | some w =>
      if w.length > 0 then
        if confirm then
          drawPrizeFrom prize
            { s with candidates := s.candidates ++ w,
                     results := resultsDelete s.results prize.id } rand
        else .declined s
      else drawPrizeFrom prize s rand
    | none => drawPrizeFrom prize s rand

/-- `LotteryManager.drawFree`: draw a single winner in free mode; the
runtime assertion re-checks the sampled winner before scheduling. -/
def drawFree (s : AppState) (rand : List Nat) : DrawOutcome :=
  if s.candidates.length = 0 then .freeInsufficient s
  else
    let s1 := setDrawing true s
    match drawWinners s.candidates 1 rand with
    | .error msg => .sampleError s1 msg
    | .ok res =>
      if res.winners.length = 1 ∧ res.winners.getD 0 "" ∈ s.candidates then
        .freeStarted s1 (res.winners.getD 0 "")
      else .freeAssertFailed (setDrawing false s1)

/-- `LotteryManager.startDraw`: no-op (`none`) while a draw is in flight,
otherwise dispatch on the mode. -/
def startDraw (s : AppState) (confirm : Bool) (rand : List Nat) :
    Option DrawOutcome :=
  if s.isDrawing then none
  else
    match s.mode with
    | .prize => some (drawPrize s confirm rand)
    | .free => some (drawFree s rand)

/-- The deferred completion continuation of `drawPrize`, run once the
sphere reports all targets reached: `setDrawing(false)`,
`addResults(prize.id, winners)`, `removeCandidates(winners)`. -/
def completePrizeDraw (s : AppState) (prizeId : String)
    (winners : List String) : AppState :=
  removeCandidates winners (addResults prizeId winners (setDrawing false s))

/-- On valid bounds `drawWinners` succeeds with the shuffle prefix and
suffix. -/
theorem drawWinners_eq_ok (candidates : List String) (count : Int)
    (rand : List Nat) (h0 : 0 < count)
    (hle : count ≤ (candidates.length : Int)) :
    drawWinners candidates count rand =
      .ok ⟨(shuffle candidates rand).take count.toNat,
           (shuffle candidates rand).drop count.toNat⟩ := by
  simp only [drawWinners]
  rw [if_neg (by omega), if_neg (by omega)]

/-- An insufficiency abort inside `drawPrizeFrom` returns the state it
was entered with, untouched. -/
theorem drawPrizeFrom_insufficient (prize : Prize) (s1 : AppState)
    (rand : List Nat) (s' : AppState)
    (h : drawPrizeFrom prize s1 rand = .insufficient s') : s' = s1 := by
  unfold drawPrizeFrom at h
  by_cases hc : s1.candidates.length < prize.count
  · rw [if_pos hc] at h
    injection h with h
    exact h.symm
  · rw [if_neg hc] at h
    cases hd : drawWinners s1.candidates (prize.count : Int) rand with
    | error m => rw [hd] at h; exact DrawOutcome.noConfusion h
    | ok res => rw [hd] at h; exact DrawOutcome.noConfusion h

/-- C5 (amended): an insufficiency abort in `drawPrize` always happens
before `isDrawing` is set and before the spin request, and the state it
leaves behind differs from the invocation state at most by the confirmed
overwrite rollback; in particular, whenever the active prize has no
previously committed winners, the state after the abort is exactly the
invocation state. -/
theorem drawPrize_insufficient_aborts (s : AppState) (confirm : Bool)
    (rand : List Nat) (s' : AppState)
    (h : drawPrize s confirm rand = .insufficient s') :
    s'.isDrawing = s.isDrawing ∧ s'.prizes = s.prizes ∧
      s'.currentPrizeId = s.currentPrizeId ∧
      ((∀ p, s.prizes.find? (fun q => q.id = s.currentPrizeId) = some p →
          (resultsGet s.results p.id).getD [] = []) → s' = s) := by
  unfold drawPrize at h
  cases hf : s.prizes.find? (fun p => p.id = s.currentPrizeId) with
  | none =>
    rw [hf] at h
    exact DrawOutcome.noConfusion h
  | some prize =>
    rw [hf] at h
    dsimp only at h
    cases hg : resultsGet s.results prize.id with
    | none =>
      rw [hg] at h
      have h2 := drawPrizeFrom_insufficient _ _ _ _ h
      subst h2
      exact ⟨rfl, rfl, rfl, fun _ => rfl⟩
    | some w =>
      rw [hg] at h
      dsimp only at h
      by_cases hw : w.length > 0
      · rw [if_pos hw] at h
        by_cases hcf : confirm
        · rw [if_pos hcf] at h
          have h2 := drawPrizeFrom_insufficient _ _ _ _ h
          subst h2
          refine ⟨rfl, rfl, rfl, fun hpre => ?_⟩
          have hpw := hpre prize rfl
          rw [hg] at hpw
          simp only [Option.getD_some] at hpw
          subst hpw
          simp at hw
        · rw [if_neg hcf] at h
          exact DrawOutcome.noConfusion h
      · rw [if_neg hw] at h
        have h2 := drawPrizeFrom_insufficient _ _ _ _ h
        subst h2
        exact ⟨rfl, rfl, rfl, fun _ => rfl⟩

/-- A state whose active prize has no committed winners yet and whose
pool is too small for the requested count. -/
def insufficientDemo : AppState :=
  { mode := .prize
    candidates := ["x"]
    prizes := [{ id := "p", title := "t", count := 5 }]
    results := []
    freeResults := []
    freeInitialCandidates := []
    currentPrizeId := "p"
    language := .zh
    isDrawing := false }

/-- Witness for `drawPrize_insufficient_aborts` on `insufficientDemo`,
where the abort leaves the invocation state untouched. -/
theorem drawPrize_insufficient_aborts_witness :
    insufficientDemo.isDrawing = insufficientDemo.isDrawing ∧
      insufficientDemo.prizes = insufficientDemo.prizes ∧
      insufficientDemo.currentPrizeId = insufficientDemo.currentPrizeId ∧
      ((∀ p, insufficientDemo.prizes.find?
            (fun q => q.id = insufficientDemo.currentPrizeId) = some p →
          (resultsGet insufficientDemo.results p.id).getD [] = []) →
        insufficientDemo = insufficientDemo) :=
  drawPrize_insufficient_aborts insufficientDemo true [] insufficientDemo
    (by decide)

/-- A state whose active prize already has committed winners `A, B` while
its count exceeds even the rolled-back pool. -/
def rollbackDemo : AppState :=
  { mode := .prize
    candidates := ["c1"]
    prizes := [{ id := "p", title := "t", count := 10 }]
    results := [("p", ["A", "B"])]
    freeResults := []
    freeInitialCandidates := []
    currentPrizeId := "p"
    language := .zh
    isDrawing := false }

/-- C5 counterexample: on `rollbackDemo` with a confirmed overwrite, the
insufficiency alert is reported, yet the state observed after the abort is
*not* the state at the moment `startDraw` was invoked — the overwrite
rollback (pool regains `A, B`, results cleared) has already been persisted
before the pool-size check runs. -/
theorem drawPrize_insufficient_after_mutation :
    drawPrize rollbackDemo true [] =
      .insufficient
        { rollbackDemo with candidates := ["c1", "A", "B"], results := [] } ∧
    ({ rollbackDemo with candidates := ["c1", "A", "B"], results := [] } ≠
      rollbackDemo) := by
  constructor
  · decide
  · decide

/-- Once a key has been cleared from the results, the completion
continuation stores exactly the new winners under it. -/
theorem resultsGet_completePrizeDraw (s : AppState) (pid : String)
    (winners : List String) (h : resultsGet s.results pid = none) :
    resultsGet (completePrizeDraw s pid winners).results pid = some winners := by
  simp [completePrizeDraw, removeCandidates, addResults, setDrawing, h,
    resultsGet_resultsSet]

/-- C6: when the active prize already has committed winners `w` and the
user confirms the overwrite, `drawPrize` first returns `w` to the
candidate pool and deletes that prize's results; the sampling then draws
from the restored pool `s.candidates ++ w`, and after the deferred
completion the prize's results equal exactly the newly drawn winners —
they replace, and do not append to, the old ones. -/
theorem drawPrize_overwrite (s : AppState) (rand : List Nat) (p : Prize)
    (w : List String)
    (hp : s.prizes.find? (fun q => q.id = s.currentPrizeId) = some p)
    (hw : resultsGet s.results p.id = some w) (hwne : w ≠ [])
    (h1 : 1 ≤ p.count) (hle : p.count ≤ s.candidates.length + w.length) :
    drawPrize s true rand =
      .started
        (setDrawing true
          { s with candidates := s.candidates ++ w,
                   results := resultsDelete s.results p.id })
        p.id ((shuffle (s.candidates ++ w) rand).take p.count) ∧
    resultsGet
      (completePrizeDraw
        (setDrawing true
          { s with candidates := s.candidates ++ w,
                   results := resultsDelete s.results p.id })
        p.id ((shuffle (s.candidates ++ w) rand).take p.count)).results
      p.id =
      some ((shuffle (s.candidates ++ w) rand).take p.count) := by
  constructor
  · unfold drawPrize
    rw [hp]
    dsimp only
    rw [hw]
    dsimp only
    rw [if_pos (List.length_pos.mpr hwne), if_pos rfl]
    unfold drawPrizeFrom
    rw [if_neg (by simp only [List.length_append]; omega)]
    rw [drawWinners_eq_ok _ _ _ (by omega)
      (by simp only [List.length_append]; push_cast; omega)]
    simp
  · exact resultsGet_completePrizeDraw _ _ _ (resultsGet_resultsDelete _ _)

/-- A state whose active prize (count 2) already has winners `A, B` and
whose pool still holds three names. -/
def overwriteDemo : AppState :=
  { mode := .prize
    candidates := ["C", "D", "E"]
    prizes := [{ id := "p", title := "t", count := 2 }]
    results := [("p", ["A", "B"])]
    freeResults := []
    freeInitialCandidates := []
    currentPrizeId := "p"
    language := .zh
    isDrawing := false }

/-- Witness for `drawPrize_overwrite` on `overwriteDemo` with entropy
`[0, 0, 0, 0]`. -/
theorem drawPrize_overwrite_witness :
    drawPrize overwriteDemo true [0, 0, 0, 0] =
      .started
        (setDrawing true
          { overwriteDemo with candidates := ["C", "D", "E", "A", "B"],
                               results := [] })
        "p" ((shuffle ["C", "D", "E", "A", "B"] [0, 0, 0, 0]).take 2) ∧
    resultsGet
      (completePrizeDraw
        (setDrawing true
          { overwriteDemo with candidates := ["C", "D", "E", "A", "B"],
                               results := [] })
        "p" ((shuffle ["C", "D", "E", "A", "B"] [0, 0, 0, 0]).take 2)).results
      "p" =
      some ((shuffle ["C", "D", "E", "A", "B"] [0, 0, 0, 0]).take 2) :=
  drawPrize_overwrite overwriteDemo [0, 0, 0, 0]
    { id := "p", title := "t", count := 2 } ["A", "B"]
    (by decide) (by decide) (by decide) (by decide) (by decide)

/-- A `.started` outcome always carries a state with the drawing flag
set. -/
theorem drawPrize_started_isDrawing (s : AppState) (confirm : Bool)
    (rand : List Nat) (s' : AppState) (pid : String) (w : List String)
    (h : drawPrize s confirm rand = .started s' pid w) :
    s'.isDrawing = true := by
  have aux : ∀ prize s1, drawPrizeFrom prize s1 rand = .started s' pid w →
      s'.isDrawing = true := by
    intro prize s1 hh
    unfold drawPrizeFrom at hh
    by_cases hc : s1.candidates.length < prize.count
    · rw [if_pos hc] at hh
      exact DrawOutcome.noConfusion hh
    · rw [if_neg hc] at hh
      cases hd : drawWinners s1.candidates (prize.count : Int) rand with
      | error m => rw [hd] at hh; exact DrawOutcome.noConfusion hh
      | ok res =>
        rw [hd] at hh
        injection hh with h1 h2 h3
        rw [← h1]
        rfl
  unfold drawPrize at h
  cases hf : s.prizes.find? (fun p => p.id = s.currentPrizeId) with
  | none =>
    rw [hf] at h
    exact DrawOutcome.noConfusion h
  | some prize =>
    rw [hf] at h
    dsimp only at h
    cases hg : resultsGet s.results prize.id with
    | none =>
      rw [hg] at h
      exact aux _ _ h
    | some w2 =>
      rw [hg] at h
      dsimp only at h
      by_cases hw : w2.length > 0
      · rw [if_pos hw] at h
        by_cases hcf : confirm
        · rw [if_pos hcf] at h
          exact aux _ _ h
        · rw [if_neg hcf] at h
          exact DrawOutcome.noConfusion h
      · rw [if_neg hw] at h
        exact aux _ _ h

/-- C7: when a `startDraw` call reaches the sampling (a `.started`
outcome), the state it leaves behind has `isDrawing = true`, and *every*
further `startDraw` call on that state — any confirmation answer, any
entropy — is a no-op (`none`): the flag serializes draws, so two calls in
rapid succession perform exactly one sampling and one commit. -/
theorem startDraw_serialized (s : AppState) (confirm : Bool)
    (rand : List Nat) (s' : AppState) (pid : String) (w : List String)
    (h : startDraw s confirm rand = some (.started s' pid w)) :
    s'.isDrawing = true ∧
      ∀ confirm' rand', startDraw s' confirm' rand' = none := by
  unfold startDraw at h
  by_cases hd : s.isDrawing
  · rw [if_pos hd] at h
    exact Option.noConfusion h
  · rw [if_neg hd] at h
    cases hm : s.mode with
    | prize =>
      rw [hm] at h
      dsimp only at h
      have hdr := drawPrize_started_isDrawing _ _ _ _ _ _ (Option.some.inj h)
      refine ⟨hdr, fun confirm' rand' => ?_⟩
      unfold startDraw
      rw [if_pos hdr]
    | free =>
      rw [hm] at h
      dsimp only at h
      have h2 := Option.some.inj h
      unfold drawFree at h2
      by_cases hc : s.candidates.length = 0
      · rw [if_pos hc] at h2
        exact DrawOutcome.noConfusion h2
      · rw [if_neg hc] at h2
        cases hd2 : drawWinners s.candidates 1 rand with
        | error m => rw [hd2] at h2; exact DrawOutcome.noConfusion h2
        | ok res =>
          rw [hd2] at h2
          dsimp only at h2
          by_cases hcnd : res.winners.length = 1 ∧
              res.winners.getD 0 "" ∈ s.candidates
          · rw [if_pos hcnd] at h2
            exact DrawOutcome.noConfusion h2
          · rw [if_neg hcnd] at h2
            exact DrawOutcome.noConfusion h2

/-- A minimal one-candidate, one-prize state ready to draw. -/
def serialDemo : AppState :=
  { mode := .prize
    candidates := ["x"]
    prizes := [{ id := "p", title := "t", count := 1 }]
    results := []
    freeResults := []
    freeInitialCandidates := []
    currentPrizeId := "p"
    language := .zh
    isDrawing := false }

/-- Witness for `startDraw_serialized`: a concrete first call starts the
draw, and the second call on the resulting state is a no-op. -/
theorem startDraw_serialized_witness :
    (setDrawing true serialDemo).isDrawing = true ∧
      ∀ confirm' rand',
        startDraw (setDrawing true serialDemo) confirm' rand' = none :=
  startDraw_serialized serialDemo true [0] (setDrawing true serialDemo)
    "p" ["x"] (by decide)

/-! ## LotterySphere — sequencing control of the orientation state machine

The embedding keeps the fields of `LotterySphere` that drive the
winner-sequencing control flow (`state`, `stateStartTime`,
`winnersQueue`, `currentWinnerIndex`, `stopConfig`,
`decelerationDuration`, `holdAtWinner`), with `performance.now()`
timestamps as natural-number milliseconds and the two callbacks reified
as events.  Orientation quantities (the quaternions and the
`extraSpinTotal` angle, stored here as its `extraRevs` multiple of `2π`)
feed only the rendered slerp and never influence control flow. -/

/-- `AnimationState` from `LotterySphere.ts`. -/
inductive AnimationState
  | idle
  | accelerating
  | constant
  | decelerating
  | highlighting
  deriving DecidableEq, Repr

/-- `StopConfig` from `LotterySphere.ts` (every field optional, defaults
applied at use sites with `??`). -/
structure StopConfig where
  extraRevs : Option Int := none
  durationMs : Option Nat := none
  nextExtraRevs : Option Int := none
  nextDurationMs : Option Nat := none
  finalPauseMs : Option Nat := none
  deriving DecidableEq, Repr

/-- The sequencing-relevant state of a `LotterySphere` (initial field
values as in the class declaration). -/
structure SphereState where
  names : List String
  animState : AnimationState := .idle
  stateStartTime : Nat := 0
  winnersQueue : List String := []
  currentWinnerIndex : Nat := 0
  stopConfig : StopConfig := {}
  extraSpinRevs : Int := 0
  decelerationDuration : Nat := 10000
  spinPlanDecel : Option Nat := none
  holdAtWinner : Bool := false
  deriving DecidableEq, Repr

/-- The callbacks the sphere fires towards the orchestrator. -/
inductive SphereEvent
  | winnerHighlight (name : String)
  | allFinished
  deriving DecidableEq, Repr

/-- `prepareDeceleration`: look the target sprite up by name.  When
found, aim the end quaternion at it and install the configured extra
revolutions and deceleration duration; when missing, warn and keep the
current orientation as the target with no extra spin — note that the
missing-target branch leaves `decelerationDuration` at its previous
value. -/
def prepareDeceleration (targetName : String) (config : StopConfig)
    (s : SphereState) : SphereState :=
  if targetName ∈ s.names then
    { s with extraSpinRevs := max 0 (config.extraRevs.getD 6),
             decelerationDuration :=
               config.durationMs.getD (max 1800 (s.spinPlanDecel.getD 2000)) }
  else
    { s with extraSpinRevs := 0 }

/-- `prepareTransitionToNext`: shorter transition to the next winner;
when the target is missing, jump straight to `highlighting` with a zeroed
timer so the next frame advances immediately. -/
def prepareTransitionToNext (targetName : String) (now : Nat)
    (s : SphereState) : SphereState :=
  if targetName ∈ s.names then
    { s with extraSpinRevs := max 0 (s.stopConfig.nextExtraRevs.getD 1),
             decelerationDuration := s.stopConfig.nextDurationMs.getD 1300,
             animState := .decelerating,
             stateStartTime := now }
  else
    { s with animState := .highlighting, stateStartTime := 0 }

/-- `stopAndHighlightWinners`: install the winner queue and start
decelerating towards the first winner (or finish immediately on an empty
queue or an empty sphere). -/
def stopAndHighlightWinners (winners : List String) (config : StopConfig)
    (now : Nat) (s : SphereState) : SphereState × List SphereEvent :=
  if s.names.length = 0 then (s, [.allFinished])
  else
    let s1 := { s with winnersQueue := winners, currentWinnerIndex := 0,
                       stopConfig := config }
    if winners.length > 0 then
      ({ prepareDeceleration (winners.getD 0 "") config s1 with
           animState := .decelerating, stateStartTime := now }, [])
    else
      ({ s1 with animState := .idle }, [.allFinished])

/-- One `animate` frame at timestamp `now`, restricted to sequencing.
The deceleration-completion test mirrors
`progress = min((now - stateStartTime) / decelerationDuration, 1)`
reaching `1`; the dwell test mirrors
`now - stateStartTime > pauseDuration` with
`pauseDuration = stopConfig.finalPauseMs ?? 1000`.  Both checks run in
the same frame, exactly as the two successive `if` statements in
`animate`. -/
def frame (s : SphereState) (now : Nat) : SphereState × List SphereEvent :=
  let dec :=
    if s.animState = .decelerating ∧
        s.decelerationDuration ≤ now - s.stateStartTime then
      ({ s with animState := .highlighting, stateStartTime := now },
       [SphereEvent.winnerHighlight (s.winnersQueue.getD s.currentWinnerIndex "")])
    else (s, ([] : List SphereEvent))
  let s1 := dec.1
  let evs1 := dec.2
  if s1.animState = .highlighting ∧
      s1.stopConfig.finalPauseMs.getD 1000 < now - s1.stateStartTime then
    let nextIndex := s1.currentWinnerIndex + 1
    let s2 := { s1 with currentWinnerIndex := nextIndex }
    if nextIndex < s2.winnersQueue.length then
      (prepareTransitionToNext (s2.winnersQueue.getD nextIndex "") now s2, evs1)
    else
      ({ s2 with holdAtWinner := true, animState := .idle },
       evs1 ++ [SphereEvent.allFinished])
  else (s1, evs1)

/-- A sphere showing names `a, b`, idle. -/
def lockDemoSphere : SphereState := { names := ["a", "b"] }

/-- The stop configuration the orchestrator builds for a prize draw. -/
def lockDemoConfig : StopConfig :=
  { extraRevs := some 2
    durationMs := some 2200
    nextExtraRevs := some 1
    nextDurationMs := some 1200
    finalPauseMs := some 1200 }

/-- The state right after requesting a lock onto `["x", "b"]`, whose
first target `x` is not among the addressable names. -/
def lockDemoLocked : SphereState :=
  (stopAndHighlightWinners ["x", "b"] lockDemoConfig 0 lockDemoSphere).1

/-- C8 counterexample: when the *first* requested target is missing, the
machine does not skip its dwell immediately — it starts decelerating
towards the unchanged orientation (with the stale 10000 ms deceleration
duration, since the missing-target branch of `prepareDeceleration` never
assigns it), a frame 1300 ms later has advanced nothing and fired
nothing, and at 10000 ms the machine highlights the missing target `x`
and enters its full dwell instead of proceeding to the next target. -/
theorem missingFirstTarget_not_skipped :
    lockDemoLocked.animState = .decelerating ∧
    lockDemoLocked.currentWinnerIndex = 0 ∧
    lockDemoLocked.decelerationDuration = 10000 ∧
    frame lockDemoLocked 1300 = (lockDemoLocked, []) ∧
    (frame lockDemoLocked 10000).2 = [SphereEvent.winnerHighlight "x"] ∧
    (frame lockDemoLocked 10000).1.animState = .highlighting ∧
    (frame lockDemoLocked 10000).1.currentWinnerIndex = 0 := by
  decide

/-- C8 (amended): a missing target never crashes the machine (every
transition is total).  A missing target in a *subsequent* position is
skipped immediately: `prepareTransitionToNext` parks the machine in
`highlighting` with a zeroed timer, so any later frame (its timestamp
exceeding the dwell pause) advances to the following target without
highlighting the missing one — or fires `allFinished` when none remain.
A missing *first* target, by contrast, runs a full deceleration toward
the unchanged orientation plus the normal dwell (see the counterexample
theorem). -/
theorem prepareTransitionToNext_missing_skips (s : SphereState)
    (name : String) (now now2 : Nat) (hmiss : name ∉ s.names)
    (hpause : s.stopConfig.finalPauseMs.getD 1000 < now2) :
    (prepareTransitionToNext name now s).animState = .highlighting ∧
    (prepareTransitionToNext name now s).stateStartTime = 0 ∧
    (frame (prepareTransitionToNext name now s) now2).1.currentWinnerIndex =
      s.currentWinnerIndex + 1 ∧
    (frame (prepareTransitionToNext name now s) now2).2 =
      (if s.currentWinnerIndex + 1 < s.winnersQueue.length then []
       else [SphereEvent.allFinished]) := by
  by_cases hlt : s.currentWinnerIndex + 1 < s.winnersQueue.length
  all_goals
    rw [prepareTransitionToNext, if_neg hmiss]
    refine ⟨rfl, rfl, ?_, ?_⟩ <;>
      simp [frame, hpause, hlt, prepareTransitionToNext,
        apply_ite SphereState.currentWinnerIndex]

/-- A sphere mid-sequence: names `a, b`, queue `[a, y, b]`, currently
dwelling on the first winner. -/
def lockDemoMid : SphereState :=
  { names := ["a", "b"]
    animState := .highlighting
    stateStartTime := 0
    winnersQueue := ["a", "y", "b"]
    currentWinnerIndex := 1 }

/-- Witness for `prepareTransitionToNext_missing_skips`: the missing
middle target `y` is skipped and the machine proceeds to index 2. -/
theorem prepareTransitionToNext_missing_skips_witness :
    (prepareTransitionToNext "y" 5000 lockDemoMid).animState = .highlighting ∧
    (prepareTransitionToNext "y" 5000 lockDemoMid).stateStartTime = 0 ∧
    (frame (prepareTransitionToNext "y" 5000 lockDemoMid) 6001).1.currentWinnerIndex =
      lockDemoMid.currentWinnerIndex + 1 ∧
    (frame (prepareTransitionToNext "y" 5000 lockDemoMid) 6001).2 =
      (if lockDemoMid.currentWinnerIndex + 1 <
          lockDemoMid.winnersQueue.length then []
       else [SphereEvent.allFinished]) :=
  prepareTransitionToNext_missing_skips lockDemoMid "y" 5000 6001
    (by decide) (by decide)

end Pachinko
